import Mathlib

/-!
Verification of the agent-FSM runtime core (`packages/runtime`).

The development shallowly embeds the TypeScript sources:
  * `src/core/AgentContext.ts`  — the mutable context store,
  * `src/core/Executor.ts`      — tool dispatch with bus events,
  * `src/event/EventBus.ts`     — broadcast bus (no retention),
  * `src/fsm/agentActions.ts` / the machine config in `src/fsm/agentMachine.ts`,
  * the devpanel bridge server (`startDevpanelBridge`).

JavaScript records (`Record<string, unknown>`) are modelled as association
lists with spread (`{...a, ...b}`) rendered as a left fold of key replacement.
Non-deterministic inputs of the code (`Date.now()`, `nanoid()`) are threaded
as explicit parameters.  Enumerated string fields (`status`, `directive`,
event `type`) are kept as `String` because the FSM compares them as string
literals under `@ts-nocheck`.
-/

set_option autoImplicit false

namespace AgentFsm

/-! ## Association lists: the embedding of JS object records -/

section AssocOps

variable {β : Type}

/-- First-match lookup in a JS-object style association list. -/
def lookupL : List (String × β) → String → Option β
  | [], _ => none
  | kv :: rest, k => if kv.1 = k then some kv.2 else lookupL rest k

/-- Does the record contain key `k`? -/
def containsL (l : List (String × β)) (k : String) : Bool :=
  l.any (fun kv => kv.1 = k)

/-- JS computed-member assignment `{...l, [k]: v}`: replace the binding of an
existing key in place, otherwise append the new binding.  (JS object keys are
unique, so replacing the first occurrence is the object semantics.) -/
def setL : List (String × β) → String → β → List (String × β)
  | [], k, v => [(k, v)]
  | kv :: rest, k, v => if kv.1 = k then (k, v) :: rest else kv :: setL rest k v

/-- JS object spread `{...base, ...upd}`: the update's bindings win. -/
def mergeL (base upd : List (String × β)) : List (String × β) :=
  upd.foldl (fun acc kv => setL acc kv.1 kv.2) base

@[simp] theorem lookupL_nil (k : String) : lookupL ([] : List (String × β)) k = none := rfl

theorem lookupL_cons (kv : String × β) (rest : List (String × β)) (k : String) :
    lookupL (kv :: rest) k = if kv.1 = k then some kv.2 else lookupL rest k := rfl

theorem lookupL_setL_self (l : List (String × β)) (k : String) (v : β) :
    lookupL (setL l k v) k = some v := by
  induction l with
  | nil => simp [setL, lookupL]
  | cons kv rest ih =>
    by_cases hk : kv.1 = k
    · simp [setL, hk, lookupL]
    · simp only [setL, if_neg hk]
      rw [lookupL_cons]
      simp [if_neg hk, ih]

theorem lookupL_setL_ne (l : List (String × β)) (k k' : String) (v : β) (h : k ≠ k') :
    lookupL (setL l k v) k' = lookupL l k' := by
  induction l with
  | nil => simp [setL, lookupL, if_neg h]
  | cons kv rest ih =>
    by_cases hk : kv.1 = k
    · simp only [setL, if_pos hk]
      rw [lookupL_cons, lookupL_cons]
      have hkk' : ¬ (k = k') := h
      have hkv : ¬ (kv.1 = k') := by rw [hk]; exact h
      simp [if_neg hkk', if_neg hkv]
    · simp only [setL, if_neg hk]
      rw [lookupL_cons, lookupL_cons]
      by_cases hk' : kv.1 = k'
      · simp [hk']
      · simp [if_neg hk', ih]

/-- Keys absent from the update survive a spread-merge unchanged. -/
theorem lookupL_mergeL_notMem (base upd : List (String × β)) (k : String)
    (h : ∀ kv ∈ upd, kv.1 ≠ k) :
    lookupL (mergeL base upd) k = lookupL base k := by
  induction upd generalizing base with
  | nil => rfl
  | cons kv rest ih =>
    have hkv : kv.1 ≠ k := h kv (by simp)
    have hrest : ∀ kv ∈ rest, (kv : String × β).1 ≠ k := fun kv hin => h kv (by simp [hin])
    show lookupL (mergeL (setL base kv.1 kv.2) rest) k = lookupL base k
    rw [ih (setL base kv.1 kv.2) hrest, lookupL_setL_ne _ _ _ _ hkv]

/-- A key bound in a duplicate-free update receives the update's value. -/
theorem lookupL_mergeL_mem (base upd : List (String × β)) (k : String) (v : β)
    (hnd : (upd.map Prod.fst).Nodup) (h : lookupL upd k = some v) :
    lookupL (mergeL base upd) k = some v := by
  induction upd generalizing base with
  | nil => simp [lookupL] at h
  | cons kv rest ih =>
    rw [lookupL_cons] at h
    simp only [List.map_cons, List.nodup_cons] at hnd
    show lookupL (mergeL (setL base kv.1 kv.2) rest) k = some v
    by_cases hk : kv.1 = k
    · simp only [if_pos hk] at h
      have hrest : ∀ kv' ∈ rest, (kv' : String × β).1 ≠ k := by
        intro kv' hin hkk
        exact hnd.1 (by rw [hk, ← hkk]; exact List.mem_map_of_mem Prod.fst hin)
      rw [lookupL_mergeL_notMem _ _ _ hrest, hk, lookupL_setL_self]
      exact h.symm ▸ rfl
    · simp only [if_neg hk] at h
      exact ih _ hnd.2 h

end AssocOps

/-! ## Primitive payload values

`Record<string, unknown>` values that the verified claims inspect are strings;
the embedding also carries numbers, booleans and null so that records are not
artificially single-typed. -/

inductive PrimValue where
  | s (v : String)
  | i (v : Int)
  | b (v : Bool)
  | null
deriving DecidableEq, Repr

/-- A JS `Record<string, unknown>` holding primitive values. -/
abbrev PRec := List (String × PrimValue)

/-! ## Task / observation / plan data model (`src/types/index.ts`, `src/types/masterPlan.ts`) -/

/-- `TaskNode` of `src/types/index.ts`.  `status` is one of the strings
`pending | in_progress | succeeded | failed`; the FSM never inspects it, so it
is kept as a raw string. -/
structure TaskNode where
  taskId : String
  description : String
  status : String
  parentId : Option String := none
  children : List String
  metadata : Option PRec := none
  createdAt : Nat
  updatedAt : Nat
deriving DecidableEq, Repr

/-- The tasks table `Record<string, TaskNode>`. -/
abbrev TasksMap := List (String × TaskNode)

/-- `Observation` of `src/types/index.ts`; `source` is one of
`tool | user | system`. -/
structure Observation where
  source : String
  relatedTaskId : String
  timestamp : Nat
  payload : PRec
  success : Bool
  latencyMs : Option Nat := none
  error : Option String := none
deriving DecidableEq, Repr

/-- One `{toolId, description?, parameters?}` entry of a `PlanItem.toolSequence`. -/
structure PlanItemTool where
  toolId : String
  description : Option String := none
  parameters : Option PRec := none
deriving DecidableEq, Repr

/-- `PlanItemRetry` of `src/types/masterPlan.ts`. -/
structure PlanItemRetry where
  limit : Option Nat := none
  strategy : Option String := none
  intervalMs : Option Nat := none
deriving DecidableEq, Repr

/-- `PlanItem` of `src/types/masterPlan.ts` (statuses are raw strings). -/
structure PlanItem where
  id : String
  title : String
  description : Option String := none
  status : String
  relatedTaskId : Option String := none
  toolSequence : List PlanItemTool
  successCriteria : List String
  retry : Option PlanItemRetry := none
  metadata : Option PRec := none
deriving DecidableEq, Repr

/-- `MasterPlanHistoryEntry` of `src/types/masterPlan.ts`. -/
structure MasterPlanHistoryEntry where
  version : Nat
  timestamp : Nat
  event : String
  summary : Option String := none
  payload : Option PRec := none
deriving DecidableEq, Repr

/-- `MasterPlan` of `src/types/masterPlan.ts`.  `currentIndex` is an `Int`:
the runtime code (`resolveCurrentStep`) explicitly guards against negative
indices, so the embedding keeps them representable. -/
structure MasterPlan where
  planId : String
  steps : List PlanItem
  currentIndex : Int
  status : String
  reasoning : Option String := none
  userMessage : Option String := none
  createdAt : Nat
  updatedAt : Nat
  history : Option (List MasterPlanHistoryEntry) := none
  metadata : Option PRec := none
deriving DecidableEq, Repr

/-- `PlannerResult` of `src/types/masterPlan.ts`. -/
structure PlannerResult where
  plan : MasterPlan
  issuedAt : Nat
  historyEntry : Option MasterPlanHistoryEntry := none
  metadata : Option PRec := none
deriving DecidableEq, Repr

/-- Metadata values attached to a `ReflectionResult`: either a primitive or
the `taskUpdates` list of task nodes that `extractTaskUpdates` looks for. -/
inductive MetaValue where
  | p (v : PrimValue)
  | taskList (ts : List TaskNode)
deriving DecidableEq, Repr

abbrev MetaRec := List (String × MetaValue)

/-- `ReflectionResult` of `src/types/masterPlan.ts`.  The `directive` is kept
as a `String`: the machine configuration compares it against string literals
and has a catch-all transition for unrecognised values. -/
structure ReflectionResult where
  directive : String
  plan : MasterPlan
  historyEntry : Option MasterPlanHistoryEntry := none
  message : Option String := none
  metadata : Option MetaRec := none
deriving DecidableEq, Repr

/-- `ToolResult` of `src/types/index.ts`. -/
structure ToolResult where
  success : Bool
  output : PRec
  error : Option String := none
  latencyMs : Option Nat := none
deriving DecidableEq, Repr

/-- `ExecutionResult` of `src/types/index.ts`. -/
structure ExecutionResult where
  planId : String
  stepIndex : Nat
  step : PlanItem
  toolId : Option String := none
  result : ToolResult
deriving DecidableEq, Repr

/-! ## AgentContext (`src/core/AgentContext.ts`)

The live store holds an `AgentContextSnapshot`; every mutator replaces the
stored record by a freshly-spread one.  The pure model works on the snapshot
value directly; aliasing behaviour is treated separately by the heap model
further below.  The snapshot carries `masterPlan` as required by
`AgentContextSnapshot` in `src/types/index.ts`. -/

structure AgentContextSnapshot where
  agentId : String
  rootTaskId : String
  activeTaskId : Option String
  tasks : TasksMap
  observations : List Observation
  workingMemory : PRec
  metadata : PRec
  iteration : Nat
  masterPlan : Option MasterPlan := none
deriving DecidableEq, Repr

/-- `AgentContextUpdate` of `src/types/index.ts`.  An outer `none` means the
field is absent from the update object. -/
structure AgentContextUpdate where
  activeTaskId : Option (Option String) := none
  tasks : Option TasksMap := none
  observations : Option (List Observation) := none
  workingMemory : Option PRec := none
  metadata : Option PRec := none
  iteration : Option Nat := none
  masterPlan : Option (Option MasterPlan) := none
deriving DecidableEq, Repr

/-- The root-task argument of the `AgentContext` constructor
(`Omit<TaskNode, 'createdAt' | 'updatedAt' | 'children'> & {children?}`). -/
structure RootTaskArg where
  taskId : Option String := none
  description : String
  status : String
  parentId : Option String := none
  children : Option (List String) := none
  metadata : Option PRec := none
deriving DecidableEq, Repr

namespace AgentContextSnapshot

/-- The `AgentContext` constructor.  `genId` stands for the `nanoid()` drawn
when the caller supplies no `taskId`; `now` is `Date.now()`. -/
def mk0 (agentId : String) (rootTask : RootTaskArg) (metadata : Option PRec)
    (genId : String) (now : Nat) : AgentContextSnapshot :=
  let rootTaskId := rootTask.taskId.getD genId
  let task : TaskNode :=
    { taskId := rootTaskId
      description := rootTask.description
      status := rootTask.status
      createdAt := now
      updatedAt := now
      children := rootTask.children.getD []
      parentId := rootTask.parentId
      metadata := rootTask.metadata }
  { agentId := agentId
    rootTaskId := rootTaskId
    activeTaskId := some rootTaskId
    tasks := [(rootTaskId, task)]
    observations := []
    workingMemory := []
    metadata := metadata.getD []
    iteration := 0
    masterPlan := none }

/-- `getSnapshot` deep-clones the live record; on pure values the clone is
equal to the original, so the model returns the value itself.  (Reference
sharing is analysed by the heap model below.) -/
def getSnapshot (s : AgentContextSnapshot) : AgentContextSnapshot := s

/-- `setActiveTask`: update the pointer and bump the iteration counter. -/
def setActiveTask (s : AgentContextSnapshot) (taskId : Option String) :
    AgentContextSnapshot :=
  { s with activeTaskId := taskId, iteration := s.iteration + 1 }

/-- The tasks-map part of `upsertTask` (shared with the heap model). -/
def upsertInMap (m : TasksMap) (task : TaskNode) (now : Nat) : TasksMap :=
  let existing := lookupL m task.taskId
  let normalized : TaskNode :=
    { task with
      createdAt := (existing.map TaskNode.createdAt).getD now
      updatedAt := now
      children := task.children }
  setL m task.taskId normalized

/-- `upsertTask`: insert or refresh a task node. -/
def upsertTask (s : AgentContextSnapshot) (task : TaskNode) (now : Nat) :
    AgentContextSnapshot :=
  { s with tasks := upsertInMap s.tasks task now }

/-- The tasks-map part of `linkChild` (shared with the heap model). -/
def linkChildInMap (m : TasksMap) (parentId childId : String) (now : Nat) : TasksMap :=
  match lookupL m parentId with
  | none => m
  | some parent =>
      if childId ∈ parent.children then m
      else
        setL m parentId
          { parent with children := parent.children ++ [childId], updatedAt := now }

/-- `linkChild`: attach a child id to an existing parent, idempotently. -/
def linkChild (s : AgentContextSnapshot) (parentId childId : String) (now : Nat) :
    AgentContextSnapshot :=
  { s with tasks := linkChildInMap s.tasks parentId childId now }

/-- `addObservation`: append one observation. -/
def addObservation (s : AgentContextSnapshot) (o : Observation) :
    AgentContextSnapshot :=
  { s with observations := s.observations ++ [o] }

/-- `mergeWorkingMemory`: shallow merge into the working memory. -/
def mergeWorkingMemory (s : AgentContextSnapshot) (memory : PRec) :
    AgentContextSnapshot :=
  { s with workingMemory := mergeL s.workingMemory memory }

/-- JS truthiness of `update.activeTaskId` as used by `patch`: the field must
be present and a non-empty string. -/
def truthyActive (a : Option (Option String)) : Bool :=
  match a with
  | some (some s) => s ≠ ""
  | _ => false

/-- `patch` (`src/core/AgentContext.ts`, lines 112–129): spread the update
onto the snapshot, shallow-merging `workingMemory`/`metadata`, replacing
`observations`/`tasks` when supplied, and computing `iteration` from
`update.iteration ?? (update.activeTaskId ? iteration + 1 : iteration)`. -/
def patch (s : AgentContextSnapshot) (u : AgentContextUpdate) :
    AgentContextSnapshot :=
  { s with
    activeTaskId := u.activeTaskId.getD s.activeTaskId
    masterPlan := u.masterPlan.getD s.masterPlan
    workingMemory := mergeL s.workingMemory (u.workingMemory.getD [])
    metadata := mergeL s.metadata (u.metadata.getD [])
    observations := u.observations.getD s.observations
    tasks := u.tasks.getD s.tasks
    iteration :=
      u.iteration.getD
        (if truthyActive u.activeTaskId then s.iteration + 1 else s.iteration) }

/-- Modelled from the spec: `setMasterPlan(p?)` of the AgentContext.  The
method is called by `storePlannerResult`/`commitReflectionResult` in
`src/fsm/agentActions.ts` and declared by the snapshot type, but its body is
not among the sources; the spec lists it as the operation storing the plan. -/
def setMasterPlan (s : AgentContextSnapshot) (p : Option MasterPlan) :
    AgentContextSnapshot :=
  { s with masterPlan := p }

/-- Modelled from the spec: `getMasterPlan()` returns the stored plan. -/
def getMasterPlan (s : AgentContextSnapshot) : Option MasterPlan :=
  s.masterPlan

end AgentContextSnapshot

/-- One mutating call on the `AgentContext` public interface, used to
quantify over arbitrary mutation sequences. -/
inductive CtxOp where
  | upsert (t : TaskNode) (now : Nat)
  | link (parentId childId : String) (now : Nat)
  | addObs (o : Observation)
  | mergeWM (m : PRec)
  | setActive (a : Option String)
  | patch (u : AgentContextUpdate)
  | setPlan (p : Option MasterPlan)
deriving DecidableEq, Repr

/-- Apply one operation to the live store. -/
def applyOp (s : AgentContextSnapshot) : CtxOp → AgentContextSnapshot
  | .upsert t now => s.upsertTask t now
  | .link p c now => s.linkChild p c now
  | .addObs o => s.addObservation o
  | .mergeWM m => s.mergeWorkingMemory m
  | .setActive a => s.setActiveTask a
  | .patch u => s.patch u
  | .setPlan p => s.setMasterPlan p

/-- Apply a sequence of operations, oldest first. -/
def applyOps (s : AgentContextSnapshot) (ops : List CtxOp) : AgentContextSnapshot :=
  ops.foldl applyOp s

/-! ## Bus events and the Executor (`src/core/Executor.ts`) -/

/-- Payloads of the bus events the core emits.  The source stores them as a
free-form record; the embedding tags them with the exact field sets built at
each emission site. -/
inductive BusPayload where
  | toolRequest (toolId planId stepId : String) (stepIndex : Nat) (step : PlanItem)
  | toolResult (toolId planId stepId : String) (stepIndex : Nat) (step : PlanItem)
      (result : ToolResult)
  | agentState (agentId : String) (state : String) (iteration : Nat)
      (activeTaskId : Option String)
deriving DecidableEq, Repr

/-- `BusEvent` of `src/types/index.ts` (`type` is rendered `etype`). -/
structure BusEvent where
  eventId : String
  etype : String
  timestamp : Nat
  traceId : String
  relatedTaskId : Option String := none
  payload : BusPayload
deriving DecidableEq, Repr

/-- `ToolInput` of `src/types/index.ts`. -/
structure ToolInput where
  taskId : String
  traceId : String
  params : PRec
  context : AgentContextSnapshot
deriving DecidableEq, Repr

/-- `ToolAdapter` of `src/types/index.ts`.  `execute` may reject: a rejection
is an `Except.error` carrying the exception message. -/
structure ToolAdapter where
  id : String
  description : String
  execute : ToolInput → Except String ToolResult

abbrev ToolRegistry := List ToolAdapter

/-- `ToolRegistry.get`: name-indexed lookup. -/
def registryGet (reg : ToolRegistry) (toolId : String) : Option ToolAdapter :=
  reg.find? (fun t => t.id = toolId)

/-- The fresh identifiers and clock readings `Executor.execute` draws
(`nanoid()` for the trace and event ids, `Date.now()` for timestamps). -/
structure ExecEnv where
  traceId : String
  reqEventId : String
  resEventId : String
  tReq : Nat
  tStart : Nat
  tEnd : Nat
  tRes : Nat

/-- The `tool.request` event built by `Executor.execute`. -/
def mkRequestEvent (env : ExecEnv) (toolId : String) (plan : MasterPlan)
    (stepIndex : Nat) (step : PlanItem) : BusEvent :=
  { eventId := env.reqEventId
    etype := "tool.request"
    timestamp := env.tReq
    traceId := env.traceId
    relatedTaskId := some (step.relatedTaskId.getD step.id)
    payload := .toolRequest toolId plan.planId step.id stepIndex step }

/-- The `tool.result` event built by `Executor.execute` (the result already
carries the measured latency). -/
def mkResultEvent (env : ExecEnv) (toolId : String) (plan : MasterPlan)
    (stepIndex : Nat) (step : PlanItem) (timed : ToolResult) : BusEvent :=
  { eventId := env.resEventId
    etype := "tool.result"
    timestamp := env.tRes
    traceId := env.traceId
    relatedTaskId := some (step.relatedTaskId.getD step.id)
    payload := .toolResult toolId plan.planId step.id stepIndex step timed }

/-- The `ToolInput` built by `Executor.execute`: step parameters spread over
`{planId, stepId}`. -/
def mkToolInput (env : ExecEnv) (plan : MasterPlan) (step : PlanItem)
    (selected : Option PlanItemTool) (snapshot : AgentContextSnapshot) : ToolInput :=
  { taskId := step.relatedTaskId.getD step.id
    traceId := env.traceId
    params :=
      mergeL [("planId", PrimValue.s plan.planId), ("stepId", PrimValue.s step.id)]
        ((selected.bind PlanItemTool.parameters).getD [])
    context := snapshot }

/-- `Executor.execute` (`src/core/Executor.ts`, lines 34–120).  Returned are
the bus events emitted, in order, and either the `ExecutionResult` or the
exception that escaped.  The optional `contextManager` hook is modelled as
absent: `persistExecutionResult` swallows every recorder error and does not
alter the returned result. -/
def Executor.execute (reg : ToolRegistry) (plan : MasterPlan) (stepIndex : Nat)
    (step : PlanItem) (snapshot : AgentContextSnapshot)
    (preferredToolId : Option String) (env : ExecEnv) :
    List BusEvent × Except String ExecutionResult :=
  let toolCandidates := step.toolSequence
  let primary := toolCandidates.head?
  match preferredToolId.orElse (fun _ => primary.map PlanItemTool.toolId) with
  | none => ([], .error ("No tool candidate available for plan item " ++ step.id))
  | some toolId =>
    match registryGet reg toolId with
    | none => ([], .error ("Tool " ++ toolId ++ " is not registered"))
    | some tool =>
      let selected :=
        (toolCandidates.find? (fun c => c.toolId = toolId)).orElse (fun _ => primary)
      let requestEvent := mkRequestEvent env toolId plan stepIndex step
      let input := mkToolInput env plan step selected snapshot
      -- `await tool.execute(input)`: a rejection escapes `execute` uncaught,
      -- after the request event was already emitted.
      match tool.execute input with
      | .error msg => ([requestEvent], .error msg)
      | .ok result =>
        let elapsed := env.tEnd - env.tStart
        let timed : ToolResult := { result with latencyMs := some elapsed }
        ([requestEvent, mkResultEvent env toolId plan stepIndex step timed],
          .ok { planId := plan.planId, stepIndex := stepIndex, step := step,
                toolId := some toolId, result := timed })

/-! ## EventBus (`src/event/EventBus.ts`)

The bus wraps an `eventemitter3` emitter whose entire state is its listener
registry.  `emit` synchronously hands the event to every currently attached
listener and keeps no record of it. -/

/-- The bus state: the ids of the currently attached listeners. -/
structure EventBus where
  listeners : List String
deriving DecidableEq, Repr

/-- `emit`: broadcast to the current listeners.  The returned bus is the state
after emission; the delivery list pairs each listener with the event. -/
def EventBus.emit (bus : EventBus) (e : BusEvent) :
    EventBus × List (String × BusEvent) :=
  (bus, bus.listeners.map (fun l => (l, e)))

/-- `events()` subscription: attach one listener. -/
def EventBus.subscribe (bus : EventBus) (l : String) : EventBus :=
  { listeners := bus.listeners ++ [l] }

/-- Unsubscribing removes the listener again. -/
def EventBus.unsubscribe (bus : EventBus) (l : String) : EventBus :=
  { listeners := bus.listeners.filter (fun x => x ≠ l) }

/-! ## The devpanel bridge (`startDevpanelBridge`) -/

/-- The retention state the bridge server keeps beside the runtime:
`eventHistory`, `snapshotHistory` and the set of connected SSE clients. -/
structure BridgeState where
  eventHistory : List BusEvent := []
  snapshotHistory : List AgentContextSnapshot := []
  clients : List String := []
deriving DecidableEq, Repr

/-- The bridge's `events$` subscriber: push the event into `eventHistory`
(then broadcast it to the connected clients). -/
def BridgeState.onBusEvent (st : BridgeState) (e : BusEvent) : BridgeState :=
  { st with eventHistory := st.eventHistory ++ [e] }

/-- The bridge's `snapshots$` subscriber. -/
def BridgeState.onSnapshot (st : BridgeState) (s : AgentContextSnapshot) : BridgeState :=
  { st with snapshotHistory := st.snapshotHistory ++ [s] }

/-- Absorb a whole run's bus events in emission order. -/
def BridgeState.afterEvents (st : BridgeState) (es : List BusEvent) : BridgeState :=
  es.foldl BridgeState.onBusEvent st

/-! ## The agent machine (`createAgentMachine` and `src/fsm/agentActions.ts`)

The machine configuration is an xstate chart; its states, entry actions,
`invoke` handlers and `always` transitions are rendered as an explicit
transition system, the reading the spec's design notes recommend.  Exceptions
thrown while a state is active (guard entry actions, rejected
planner/executor/reflector services) follow the state's error wiring:
`onError → error` with `recordFailure`, then the `error` state's `always`
transitions. -/

/-- The machine's states (`AgentState` of `src/types/index.ts`). -/
inductive MState where
  | plan
  | act
  | observe
  | reflect
  | error
  | finish
deriving DecidableEq, Repr

/-- `ExecutionGuard` of `src/types/index.ts`. -/
structure ExecutionGuard where
  maxIterations : Option Nat := none
  maxFailures : Option Nat := none
  maxDurationMs : Option Nat := none
deriving DecidableEq, Repr

/-- The machine-local context (`MachineContext` used by the master-plan
machine in `agentActions.ts`).  `live` is the mutable `AgentContext` the
machine owns; `snapshot` is the last snapshot the actions cached. -/
structure MachineCtx where
  live : AgentContextSnapshot
  snapshot : AgentContextSnapshot
  masterPlan : Option MasterPlan := none
  currentStep : Option PlanItem := none
  currentStepIndex : Option Nat := none
  executionResult : Option ExecutionResult := none
  observation : Option Observation := none
  attempt : Nat := 0
  iterations : Nat := 0
  failures : Nat := 0
  startedAt : Nat := 0
deriving DecidableEq, Repr

/-- `resolveCurrentStep` of `src/fsm/agentActions.ts`: the step under
`plan.currentIndex`, or `none` when the index is out of range. -/
def resolveCurrentStep (plan : Option MasterPlan) : Option PlanItem × Option Nat :=
  match plan with
  | none => (none, none)
  | some p =>
      if p.currentIndex < 0 ∨ (p.steps.length : Int) ≤ p.currentIndex then
        (none, none)
      else
        (p.steps[p.currentIndex.toNat]?, some p.currentIndex.toNat)

/-- `checkGuards` of `src/fsm/agentActions.ts`, the entry action of `plan`:
`some msg` is the message of the exception it throws, `none` means both
guards pass. -/
def checkGuards (guard : ExecutionGuard) (now : Nat) (mc : MachineCtx) :
    Option String :=
  let elapsed := now - mc.startedAt
  match guard.maxDurationMs with
  | some d =>
      if d < elapsed then
        some ("Agent exceeded max duration " ++ toString d ++ "ms")
      else
        match guard.maxIterations with
        | some n =>
            if n ≤ mc.iterations then
              some ("Agent exceeded max iterations " ++ toString n)
            else none
        | none => none
  | none =>
      match guard.maxIterations with
      | some n =>
          if n ≤ mc.iterations then
            some ("Agent exceeded max iterations " ++ toString n)
          else none
      | none => none

/-- `recordFailure` of `src/fsm/agentActions.ts`: one failure slot is
consumed, the message lands in working memory under `lastError`, and the
cached snapshot is refreshed. -/
def recordFailure (mc : MachineCtx) (msg : String) : MachineCtx :=
  let live1 := mc.live.mergeWorkingMemory [("lastError", PrimValue.s msg)]
  { mc with
    failures := mc.failures + 1
    live := live1
    snapshot := live1.getSnapshot }

/-- The `error` state's `always` transitions (machine config): back to `plan`
without a step, to `reflect` with one, both only below `maxFailures`;
otherwise `finish`. -/
def errorAlwaysTarget (guard : ExecutionGuard) (mc : MachineCtx) : MState :=
  let withinFailureLimit :=
    match guard.maxFailures with
    | none => true
    | some m => mc.failures < m
  if !mc.currentStep.isSome && withinFailureLimit then .plan
  else if mc.currentStep.isSome && withinFailureLimit then .reflect
  else .finish

/-- The shared failure path: `onError → error` runs `recordFailure`, then the
`error` state's `always` transitions pick the next state. -/
def failTransition (guard : ExecutionGuard) (mc : MachineCtx) (msg : String) :
    MState × MachineCtx :=
  let mc1 := recordFailure mc msg
  (errorAlwaysTarget guard mc1, mc1)

/-- `storePlannerResult` of `src/fsm/agentActions.ts`: store the returned
plan into the context, cache a fresh snapshot, resolve the current step and
reset the per-step fields. -/
def storePlannerResult (mc : MachineCtx) (output : Option PlannerResult) :
    MachineCtx :=
  match output with
  | none =>
      { mc with
        executionResult := none
        observation := none
        attempt := 0 }
  | some pr =>
      let live1 := mc.live.setMasterPlan (some pr.plan)
      let snap := live1.getSnapshot
      let resolved := resolveCurrentStep (some pr.plan)
      { mc with
        live := live1
        snapshot := snap
        masterPlan := some pr.plan
        currentStep := resolved.1
        currentStepIndex := resolved.2
        executionResult := none
        observation := none
        attempt := 0 }

/-- `extractTaskUpdates` of `src/fsm/agentActions.ts`: the
`metadata.taskUpdates` list, when it is an array of task nodes.  (The
source's element filter keeps exactly the members with a string `taskId`,
which every embedded `TaskNode` has.) -/
def extractTaskUpdates (md : Option MetaRec) : List TaskNode :=
  match md with
  | none => []
  | some r =>
      match lookupL r "taskUpdates" with
      | some (.taskList ts) => ts
      | _ => []

/-- `commitReflectionResult` of `src/fsm/agentActions.ts`: persist the
reflected plan, upsert any task updates, merge the message under
`reflectMessage`, resolve the new step, bump `iterations`, and bump `attempt`
only for `retry`/`fallback`.  The source guards the merge by JS truthiness
(`if (reflection.message)`), so an empty-string message — like an absent
one — merges nothing. -/
def commitReflectionResult (now : Nat) (mc : MachineCtx)
    (output : Option ReflectionResult) : MachineCtx :=
  match output with
  | none =>
      { mc with
        iterations := mc.iterations + 1
        snapshot := mc.live.getSnapshot }
  | some r =>
      let live1 := mc.live.setMasterPlan (some r.plan)
      let live2 :=
        (extractTaskUpdates r.metadata).foldl
          (fun s t => s.upsertTask t now) live1
      let live3 :=
        match r.message with
        | some m =>
            if m = "" then live2
            else live2.mergeWorkingMemory [("reflectMessage", PrimValue.s m)]
        | none => live2
      let resolved := resolveCurrentStep (some r.plan)
      { mc with
        live := live3
        snapshot := live3.getSnapshot
        masterPlan := some r.plan
        currentStep := resolved.1
        currentStepIndex := resolved.2
        iterations := mc.iterations + 1
        attempt :=
          if r.directive = "retry" ∨ r.directive = "fallback" then
            mc.attempt + 1
          else 0 }

/-- The `reflect` state's `onDone` transition targets, in the listed guard
order of the machine configuration; unrecognised directives fall through to
the final catch-all `plan` transition. -/
def directiveTarget (d : String) : MState :=
  if d = "complete" then .finish
  else if d = "abort" then .finish
  else if d = "replan" then .plan
  else if d = "await_user" then .plan
  else if d = "advance" ∨ d = "retry" ∨ d = "fallback" then .act
  else .plan

/-- One activation of the `plan` state.  `checkGuards` runs as the state's
entry action; under xstate v5 an exception thrown by an entry action is not
caught by the state's `invoke.onError` (which handles only rejections of the
invoked actor): the actor itself errors out and the `AgentRuntime.run`
subscriber rejects the run promise.  The `.error` result models that fatal
outcome.  Only when the guards pass does the planner service run, whose
rejection does take the `onError → error` wiring (`failTransition`) and whose
result is stored by `storePlannerResult` on the way to `act`. -/
def planStateStep (guard : ExecutionGuard) (now : Nat) (mc : MachineCtx)
    (plannerOutcome : Except String PlannerResult) :
    Except String (MState × MachineCtx) :=
  match checkGuards guard now mc with
  | some msg => .error msg
  | none =>
      match plannerOutcome with
      | .error msg => .ok (failTransition guard mc msg)
      | .ok pr => .ok (.act, storePlannerResult mc (some pr))

/-- One activation of the `reflect` state: the eager `always` transition back
to `plan` when no current step exists, otherwise the reflector service; its
rejection follows the error wiring, its result is committed and routed by the
directive table. -/
def reflectStateStep (guard : ExecutionGuard) (now : Nat) (mc : MachineCtx)
    (reflectorOutcome : Except String ReflectionResult) : MState × MachineCtx :=
  match mc.currentStep with
  | none => (.plan, mc)
  | some _ =>
      match reflectorOutcome with
      | .error msg => failTransition guard mc msg
      | .ok r => (directiveTarget r.directive, commitReflectionResult now mc (some r))

/-! ## The bridge `/run` endpoint -/

/-- `AgentRunInput` of `src/core/AgentRuntime.ts`. -/
structure AgentRunInput where
  rootTask : RootTaskArg
  metadata : Option PRec := none
deriving DecidableEq, Repr

/-- `AgentRunResult` of `src/core/AgentRuntime.ts`. -/
structure AgentRunResult where
  state : MState
  iterations : Nat
  lastObservation : Option Observation := none
  executionResult : Option ExecutionResult := none
  finalSnapshot : AgentContextSnapshot
deriving DecidableEq, Repr

/-- The parsed JSON body of `POST /run` (`RunRequestBody`; both fields may be
missing from the wire form). -/
structure RunBody where
  rootTask : Option RootTaskArg := none
  metadata : Option PRec := none
deriving DecidableEq, Repr

/-- `readJson`: an empty request body parses to the empty object `{}`;
anything else goes through `JSON.parse` (abstracted as `parse`). -/
def readJson (parse : String → Except String RunBody) (raw : String) :
    Except String RunBody :=
  if raw = "" then .ok {} else parse raw

/-- The default root task the `/run` handler substitutes when the body has no
`rootTask`; `now` is the `Date.now()` inside the template literal. -/
def defaultRootTask (now : Nat) : RootTaskArg :=
  { taskId := some ("task-" ++ toString now)
    description := "Default root task"
    status := "pending" }

/-- The HTTP outcome of `/run`. -/
inductive RunOutcome where
  | success (result : AgentRunResult)
  | failure (message : String)
deriving DecidableEq, Repr

/-- The `/run` response: status code plus JSON payload. -/
structure RunResponse where
  code : Nat
  outcome : RunOutcome
deriving DecidableEq, Repr

/-- The `POST /run` handler on a parsed body: substitute the default root
task when absent, run the agent, answer 200 with the result or 500 with the
error message. -/
def handleRun (runner : AgentRunInput → Except String AgentRunResult)
    (now : Nat) (body : RunBody) : RunResponse :=
  let rootTask := body.rootTask.getD (defaultRootTask now)
  match runner { rootTask := rootTask, metadata := body.metadata } with
  | .ok r => { code := 200, outcome := .success r }
  | .error m => { code := 500, outcome := .failure m }

/-! ## A reference-level model of the AgentContext store

The pure model above works on snapshot values and cannot talk about aliasing.
To state snapshot isolation, the compound fields of the live record — the
tasks table, the observations array and the two memory records — are placed
in an explicit heap of allocated cells.  Every mutator of
`src/core/AgentContext.ts` rebuilds the record by object spread: it only
allocates fresh cells, and `deepClone` in `getSnapshot` copies every compound
field into fresh cells.  No operation ever writes into an existing cell. -/

/-- A heap cell: one JS array/object referenced by the live record. -/
inductive HeapVal where
  | tasksV (m : TasksMap)
  | obsV (l : List Observation)
  | recV (r : PRec)
deriving DecidableEq, Repr

/-- The heap: cells indexed by allocation order. -/
abbrev Heap := List HeapVal

/-- Allocate a fresh cell and return its address. -/
def alloc (h : Heap) (v : HeapVal) : Heap × Nat := (h ++ [v], h.length)

/-- The live `AgentContext` record with compound fields as heap addresses.
Scalars (`masterPlan` is replaced wholesale by `setMasterPlan`) stay inline. -/
structure SnapRef where
  agentId : String
  rootTaskId : String
  activeTaskId : Option String
  tasksA : Nat
  obsA : Nat
  wmA : Nat
  mdA : Nat
  iteration : Nat
  masterPlan : Option MasterPlan := none
deriving DecidableEq, Repr

def readTasks (h : Heap) (a : Nat) : Option TasksMap :=
  match h[a]? with
  | some (.tasksV m) => some m
  | _ => none

def readObs (h : Heap) (a : Nat) : Option (List Observation) :=
  match h[a]? with
  | some (.obsV l) => some l
  | _ => none

def readRec (h : Heap) (a : Nat) : Option PRec :=
  match h[a]? with
  | some (.recV r) => some r
  | _ => none

/-- Dereference a record into the snapshot value it denotes. -/
def resolveRef (h : Heap) (r : SnapRef) : Option AgentContextSnapshot :=
  (readTasks h r.tasksA).bind fun tasks =>
  (readObs h r.obsA).bind fun obs =>
  (readRec h r.wmA).bind fun wm =>
  (readRec h r.mdA).map fun md =>
    { agentId := r.agentId
      rootTaskId := r.rootTaskId
      activeTaskId := r.activeTaskId
      tasks := tasks
      observations := obs
      workingMemory := wm
      metadata := md
      iteration := r.iteration
      masterPlan := r.masterPlan }

/-- One mutator call at the reference level.  Each branch mirrors the object
spread of the corresponding method: changed compound fields go to fresh
cells, unchanged ones keep their address. -/
def applyOpRef (h : Heap) (r : SnapRef) : CtxOp → Heap × SnapRef
  | .upsert t now =>
      let m := (readTasks h r.tasksA).getD []
      let alloc1 := alloc h (.tasksV (AgentContextSnapshot.upsertInMap m t now))
      (alloc1.1, { r with tasksA := alloc1.2 })
  | .link p c now =>
      let m := (readTasks h r.tasksA).getD []
      let alloc1 := alloc h (.tasksV (AgentContextSnapshot.linkChildInMap m p c now))
      (alloc1.1, { r with tasksA := alloc1.2 })
  | .addObs o =>
      let l := (readObs h r.obsA).getD []
      let alloc1 := alloc h (.obsV (l ++ [o]))
      (alloc1.1, { r with obsA := alloc1.2 })
  | .mergeWM m =>
      let w := (readRec h r.wmA).getD []
      let alloc1 := alloc h (.recV (mergeL w m))
      (alloc1.1, { r with wmA := alloc1.2 })
  | .setActive a =>
      (h, { r with activeTaskId := a, iteration := r.iteration + 1 })
  | .setPlan p =>
      (h, { r with masterPlan := p })
  | .patch u =>
      let w := (readRec h r.wmA).getD []
      let md := (readRec h r.mdA).getD []
      let allocW := alloc h (.recV (mergeL w (u.workingMemory.getD [])))
      let allocM := alloc allocW.1 (.recV (mergeL md (u.metadata.getD [])))
      let next1 :=
        match u.observations with
        | some l => alloc allocM.1 (.obsV l)
        | none => (allocM.1, r.obsA)
      let next2 :=
        match u.tasks with
        | some m => alloc next1.1 (.tasksV m)
        | none => (next1.1, r.tasksA)
      (next2.1,
        { r with
          activeTaskId := u.activeTaskId.getD r.activeTaskId
          masterPlan := u.masterPlan.getD r.masterPlan
          wmA := allocW.2
          mdA := allocM.2
          obsA := next1.2
          tasksA := next2.2
          iteration :=
            u.iteration.getD
              (if AgentContextSnapshot.truthyActive u.activeTaskId then
                r.iteration + 1
              else r.iteration) })

/-- `getSnapshot` at the reference level: `deepClone` copies each compound
field into a fresh cell and returns a record pointing at the copies. -/
def getSnapshotRef (h : Heap) (r : SnapRef) : Heap × SnapRef :=
  match resolveRef h r with
  | none => (h, r)
  | some s =>
      let allocT := alloc h (.tasksV s.tasks)
      let allocO := alloc allocT.1 (.obsV s.observations)
      let allocW := alloc allocO.1 (.recV s.workingMemory)
      let allocM := alloc allocW.1 (.recV s.metadata)
      (allocM.1,
        { agentId := s.agentId
          rootTaskId := s.rootTaskId
          activeTaskId := s.activeTaskId
          tasksA := allocT.2
          obsA := allocO.2
          wmA := allocW.2
          mdA := allocM.2
          iteration := s.iteration
          masterPlan := s.masterPlan })

/-- Run a sequence of mutators against the live record. -/
def applyOpsRef (p : Heap × SnapRef) (ops : List CtxOp) : Heap × SnapRef :=
  ops.foldl (fun q op => applyOpRef q.1 q.2 op) p

/-- Heap extension: every allocated cell keeps its content. -/
def heapLE (h h' : Heap) : Prop :=
  ∀ (i : Nat) (v : HeapVal), h[i]? = some v → h'[i]? = some v

theorem heapLE_refl (h : Heap) : heapLE h h := fun _ _ hv => hv

theorem heapLE_trans {h1 h2 h3 : Heap} (a : heapLE h1 h2) (b : heapLE h2 h3) :
    heapLE h1 h3 := fun i v hv => b i v (a i v hv)

theorem heapLE_append (h ext : Heap) : heapLE h (h ++ ext) := by
  intro i v hv
  have hlt : i < h.length := by
    by_contra hge
    rw [List.getElem?_eq_none (Nat.le_of_not_lt hge)] at hv
    exact Option.noConfusion hv
  rw [List.getElem?_append, if_pos hlt]
  exact hv

/-- Reading the heap just past a prefix yields the first appended cell. -/
theorem getElem?_append_len {α : Type} (l t : List α) (v : α) :
    (l ++ v :: t)[l.length]? = some v := by
  induction l with
  | nil => simp
  | cons a rest ih => simpa using ih

/-- Reading an extended heap at offset `pre.length` past the old end. -/
theorem read_at_append (h pre post : Heap) (v : HeapVal) :
    (h ++ (pre ++ v :: post))[h.length + pre.length]? = some v := by
  have hx := getElem?_append_len (h ++ pre) post v
  simpa [List.append_assoc] using hx

theorem readTasks_mono {h h' : Heap} {a : Nat} {m : TasksMap} (hle : heapLE h h')
    (hr : readTasks h a = some m) : readTasks h' a = some m := by
  unfold readTasks at hr ⊢
  cases hh : h[a]? with
  | none => rw [hh] at hr; cases hr
  | some v =>
      rw [hh] at hr
      rw [hle a v hh]
      exact hr

theorem readObs_mono {h h' : Heap} {a : Nat} {l : List Observation} (hle : heapLE h h')
    (hr : readObs h a = some l) : readObs h' a = some l := by
  unfold readObs at hr ⊢
  cases hh : h[a]? with
  | none => rw [hh] at hr; cases hr
  | some v =>
      rw [hh] at hr
      rw [hle a v hh]
      exact hr

theorem readRec_mono {h h' : Heap} {a : Nat} {r : PRec} (hle : heapLE h h')
    (hr : readRec h a = some r) : readRec h' a = some r := by
  unfold readRec at hr ⊢
  cases hh : h[a]? with
  | none => rw [hh] at hr; cases hr
  | some v =>
      rw [hh] at hr
      rw [hle a v hh]
      exact hr

/-- Heap extension preserves every successful dereference. -/
theorem resolveRef_mono {h h' : Heap} {r : SnapRef} {s : AgentContextSnapshot}
    (hle : heapLE h h') (hres : resolveRef h r = some s) :
    resolveRef h' r = some s := by
  unfold resolveRef at hres ⊢
  cases ht : readTasks h r.tasksA with
  | none => rw [ht] at hres; cases hres
  | some tasks =>
  cases ho : readObs h r.obsA with
  | none => rw [ht, ho] at hres; cases hres
  | some obs =>
  cases hw : readRec h r.wmA with
  | none => rw [ht, ho, hw] at hres; cases hres
  | some wm =>
  cases hm : readRec h r.mdA with
  | none => rw [ht, ho, hw, hm] at hres; cases hres
  | some md =>
      rw [ht, ho, hw, hm] at hres
      rw [readTasks_mono hle ht, readObs_mono hle ho,
        readRec_mono hle hw, readRec_mono hle hm]
      exact hres

/-- Every mutator only allocates: the input heap is a prefix of the output. -/
theorem applyOpRef_heapLE (h : Heap) (r : SnapRef) (op : CtxOp) :
    heapLE h (applyOpRef h r op).1 := by
  cases op with
  | upsert t now => exact heapLE_append h _
  | link p c now => exact heapLE_append h _
  | addObs o => exact heapLE_append h _
  | mergeWM m => exact heapLE_append h _
  | setActive a => exact heapLE_refl h
  | setPlan p => exact heapLE_refl h
  | patch u =>
      show heapLE h (applyOpRef h r (.patch u)).1
      cases ho : u.observations with
      | none =>
          cases ht : u.tasks with
          | none =>
              simp only [applyOpRef, alloc, ho, ht, List.append_assoc]
              exact heapLE_append h _
          | some m =>
              simp only [applyOpRef, alloc, ho, ht, List.append_assoc]
              exact heapLE_append h _
      | some l =>
          cases ht : u.tasks with
          | none =>
              simp only [applyOpRef, alloc, ho, ht, List.append_assoc]
              exact heapLE_append h _
          | some m =>
              simp only [applyOpRef, alloc, ho, ht, List.append_assoc]
              exact heapLE_append h _

/-- A whole mutation sequence only allocates. -/
theorem applyOpsRef_heapLE (p : Heap × SnapRef) (ops : List CtxOp) :
    heapLE p.1 (applyOpsRef p ops).1 := by
  induction ops generalizing p with
  | nil => exact heapLE_refl p.1
  | cons op rest ih =>
      show heapLE p.1 (applyOpsRef (applyOpRef p.1 p.2 op) rest).1
      exact heapLE_trans (applyOpRef_heapLE p.1 p.2 op) (ih (applyOpRef p.1 p.2 op))

theorem read_fresh0 {α : Type} (h : List α) (v : α) (rest : List α) :
    (h ++ v :: rest)[h.length]? = some v :=
  getElem?_append_len h rest v

theorem read_fresh1 {α : Type} (h : List α) (v0 v : α) (rest : List α) :
    (h ++ v0 :: v :: rest)[h.length + 1]? = some v := by
  have hx := getElem?_append_len (h ++ [v0]) rest v
  simpa [List.append_assoc] using hx

theorem read_fresh2 {α : Type} (h : List α) (v0 v1 v : α) (rest : List α) :
    (h ++ v0 :: v1 :: v :: rest)[h.length + 2]? = some v := by
  have hx := getElem?_append_len (h ++ [v0, v1]) rest v
  simpa [List.append_assoc] using hx

theorem read_fresh3 {α : Type} (h : List α) (v0 v1 v2 v : α) (rest : List α) :
    (h ++ v0 :: v1 :: v2 :: v :: rest)[h.length + 3]? = some v := by
  have hx := getElem?_append_len (h ++ [v0, v1, v2]) rest v
  simpa [List.append_assoc] using hx

/-- The clone returned by `getSnapshot` dereferences to the live value at the
moment the snapshot was taken. -/
theorem getSnapshotRef_resolve {h : Heap} {r : SnapRef} {s : AgentContextSnapshot}
    (hres : resolveRef h r = some s) :
    resolveRef (getSnapshotRef h r).1 (getSnapshotRef h r).2 = some s := by
  unfold getSnapshotRef
  rw [hres]
  simp only [alloc, List.append_assoc, List.cons_append, List.nil_append,
    List.length_append, List.length_cons, List.length_nil]
  unfold resolveRef readTasks readObs readRec
  rw [read_fresh0, read_fresh1, read_fresh2, read_fresh3]
  simp

/-- The reference-level mutators simulate the pure ones: dereferencing after a
mutation gives exactly the pure model's result.  This ties the heap model to
the value model, so neither stubs the other. -/
theorem applyOpRef_resolve {h : Heap} {r : SnapRef} {s : AgentContextSnapshot}
    (hres : resolveRef h r = some s) (op : CtxOp) :
    resolveRef (applyOpRef h r op).1 (applyOpRef h r op).2 = some (applyOp s op) := by
  unfold resolveRef at hres
  cases ht : readTasks h r.tasksA with
  | none => rw [ht] at hres; cases hres
  | some tasks =>
  cases ho : readObs h r.obsA with
  | none => rw [ht, ho] at hres; cases hres
  | some obs =>
  cases hw : readRec h r.wmA with
  | none => rw [ht, ho, hw] at hres; cases hres
  | some wm =>
  cases hm : readRec h r.mdA with
  | none => rw [ht, ho, hw, hm] at hres; cases hres
  | some md =>
  rw [ht, ho, hw, hm] at hres
  simp at hres
  subst hres
  cases op with
  | upsert t now =>
      simp only [applyOpRef, alloc, ht, Option.getD_some]
      unfold resolveRef
      rw [show readTasks (h ++ [HeapVal.tasksV (AgentContextSnapshot.upsertInMap tasks t now)])
            h.length = some (AgentContextSnapshot.upsertInMap tasks t now) by
          unfold readTasks; rw [read_fresh0]]
      rw [readObs_mono (heapLE_append h _) ho, readRec_mono (heapLE_append h _) hw,
        readRec_mono (heapLE_append h _) hm]
      simp [applyOp, AgentContextSnapshot.upsertTask]
  | link p c now =>
      simp only [applyOpRef, alloc, ht, Option.getD_some]
      unfold resolveRef
      rw [show readTasks (h ++ [HeapVal.tasksV (AgentContextSnapshot.linkChildInMap tasks p c now)])
            h.length = some (AgentContextSnapshot.linkChildInMap tasks p c now) by
          unfold readTasks; rw [read_fresh0]]
      rw [readObs_mono (heapLE_append h _) ho, readRec_mono (heapLE_append h _) hw,
        readRec_mono (heapLE_append h _) hm]
      simp [applyOp, AgentContextSnapshot.linkChild]
  | addObs o =>
      simp only [applyOpRef, alloc, ho, Option.getD_some]
      unfold resolveRef
      rw [show readObs (h ++ [HeapVal.obsV (obs ++ [o])]) h.length = some (obs ++ [o]) by
          unfold readObs; rw [read_fresh0]]
      rw [readTasks_mono (heapLE_append h _) ht, readRec_mono (heapLE_append h _) hw,
        readRec_mono (heapLE_append h _) hm]
      simp [applyOp, AgentContextSnapshot.addObservation]
  | mergeWM m =>
      simp only [applyOpRef, alloc, hw, Option.getD_some]
      unfold resolveRef
      rw [show readRec (h ++ [HeapVal.recV (mergeL wm m)]) h.length = some (mergeL wm m) by
          unfold readRec; rw [read_fresh0]]
      rw [readTasks_mono (heapLE_append h _) ht, readObs_mono (heapLE_append h _) ho,
        readRec_mono (heapLE_append h _) hm]
      simp [applyOp, AgentContextSnapshot.mergeWorkingMemory]
  | setActive a =>
      simp only [applyOpRef]
      unfold resolveRef
      rw [ht, ho, hw, hm]
      simp [applyOp, AgentContextSnapshot.setActiveTask]
  | setPlan p =>
      simp only [applyOpRef]
      unfold resolveRef
      rw [ht, ho, hw, hm]
      simp [applyOp, AgentContextSnapshot.setMasterPlan]
  | patch u =>
      cases hob : u.observations with
      | none =>
          cases htk : u.tasks with
          | none =>
              simp only [applyOpRef, alloc, hob, htk, hw, hm, Option.getD_some,
                List.append_assoc, List.cons_append, List.nil_append,
                List.length_append, List.length_cons, List.length_nil]
              unfold resolveRef
              rw [show readRec
                    (h ++ HeapVal.recV (mergeL wm (u.workingMemory.getD [])) ::
                      HeapVal.recV (mergeL md (u.metadata.getD [])) :: [])
                    h.length = some (mergeL wm (u.workingMemory.getD [])) by
                  unfold readRec; rw [read_fresh0]]
              rw [show readRec
                    (h ++ HeapVal.recV (mergeL wm (u.workingMemory.getD [])) ::
                      HeapVal.recV (mergeL md (u.metadata.getD [])) :: [])
                    (h.length + 1) = some (mergeL md (u.metadata.getD [])) by
                  unfold readRec; rw [read_fresh1]]
              rw [readTasks_mono (heapLE_append h _) ht, readObs_mono (heapLE_append h _) ho]
              simp [applyOp, AgentContextSnapshot.patch, hob, htk]
          | some mtk =>
              simp only [applyOpRef, alloc, hob, htk, hw, hm, Option.getD_some,
                List.append_assoc, List.cons_append, List.nil_append,
                List.length_append, List.length_cons, List.length_nil]
              unfold resolveRef
              rw [show readRec
                    (h ++ HeapVal.recV (mergeL wm (u.workingMemory.getD [])) ::
                      HeapVal.recV (mergeL md (u.metadata.getD [])) ::
                      HeapVal.tasksV mtk :: [])
                    h.length = some (mergeL wm (u.workingMemory.getD [])) by
                  unfold readRec; rw [read_fresh0]]
              rw [show readRec
                    (h ++ HeapVal.recV (mergeL wm (u.workingMemory.getD [])) ::
                      HeapVal.recV (mergeL md (u.metadata.getD [])) ::
                      HeapVal.tasksV mtk :: [])
                    (h.length + 1) = some (mergeL md (u.metadata.getD [])) by
                  unfold readRec; rw [read_fresh1]]
              rw [show readTasks
                    (h ++ HeapVal.recV (mergeL wm (u.workingMemory.getD [])) ::
                      HeapVal.recV (mergeL md (u.metadata.getD [])) ::
                      HeapVal.tasksV mtk :: [])
                    (h.length + 2) = some mtk by
                  unfold readTasks; rw [read_fresh2]]
              rw [readObs_mono (heapLE_append h _) ho]
              simp [applyOp, AgentContextSnapshot.patch, hob, htk]
      | some lob =>
          cases htk : u.tasks with
          | none =>
              simp only [applyOpRef, alloc, hob, htk, hw, hm, Option.getD_some,
                List.append_assoc, List.cons_append, List.nil_append,
                List.length_append, List.length_cons, List.length_nil]
              unfold resolveRef
              rw [show readRec
                    (h ++ HeapVal.recV (mergeL wm (u.workingMemory.getD [])) ::
                      HeapVal.recV (mergeL md (u.metadata.getD [])) ::
                      HeapVal.obsV lob :: [])
                    h.length = some (mergeL wm (u.workingMemory.getD [])) by
                  unfold readRec; rw [read_fresh0]]
              rw [show readRec
                    (h ++ HeapVal.recV (mergeL wm (u.workingMemory.getD [])) ::
                      HeapVal.recV (mergeL md (u.metadata.getD [])) ::
                      HeapVal.obsV lob :: [])
                    (h.length + 1) = some (mergeL md (u.metadata.getD [])) by
                  unfold readRec; rw [read_fresh1]]
              rw [show readObs
                    (h ++ HeapVal.recV (mergeL wm (u.workingMemory.getD [])) ::
                      HeapVal.recV (mergeL md (u.metadata.getD [])) ::
                      HeapVal.obsV lob :: [])
                    (h.length + 2) = some lob by
                  unfold readObs; rw [read_fresh2]]
              rw [readTasks_mono (heapLE_append h _) ht]
              simp [applyOp, AgentContextSnapshot.patch, hob, htk]
          | some mtk =>
              simp only [applyOpRef, alloc, hob, htk, hw, hm, Option.getD_some,
                List.append_assoc, List.cons_append, List.nil_append,
                List.length_append, List.length_cons, List.length_nil]
              unfold resolveRef
              rw [show readRec
                    (h ++ HeapVal.recV (mergeL wm (u.workingMemory.getD [])) ::
                      HeapVal.recV (mergeL md (u.metadata.getD [])) ::
                      HeapVal.obsV lob :: HeapVal.tasksV mtk :: [])
                    h.length = some (mergeL wm (u.workingMemory.getD [])) by
                  unfold readRec; rw [read_fresh0]]
              rw [show readRec
                    (h ++ HeapVal.recV (mergeL wm (u.workingMemory.getD [])) ::
                      HeapVal.recV (mergeL md (u.metadata.getD [])) ::
                      HeapVal.obsV lob :: HeapVal.tasksV mtk :: [])
                    (h.length + 1) = some (mergeL md (u.metadata.getD [])) by
                  unfold readRec; rw [read_fresh1]]
              rw [show readObs
                    (h ++ HeapVal.recV (mergeL wm (u.workingMemory.getD [])) ::
                      HeapVal.recV (mergeL md (u.metadata.getD [])) ::
                      HeapVal.obsV lob :: HeapVal.tasksV mtk :: [])
                    (h.length + 2) = some lob by
                  unfold readObs; rw [read_fresh2]]
              rw [show readTasks
                    (h ++ HeapVal.recV (mergeL wm (u.workingMemory.getD [])) ::
                      HeapVal.recV (mergeL md (u.metadata.getD [])) ::
                      HeapVal.obsV lob :: HeapVal.tasksV mtk :: [])
                    (h.length + 3) = some mtk by
                  unfold readTasks; rw [read_fresh3]]
              simp [applyOp, AgentContextSnapshot.patch, hob, htk]

/-! ## Auxiliary lemmas about the context operations -/

/-- Overwriting any key keeps every present key present. -/
theorem lookupL_setL_isSome {β : Type} (l : List (String × β)) (k k' : String) (v : β)
    (h : (lookupL l k).isSome) : (lookupL (setL l k' v) k).isSome := by
  by_cases hk : k' = k
  · rw [hk, lookupL_setL_self]; rfl
  · rw [lookupL_setL_ne _ _ _ _ hk]; exact h

/-- Merging a single binding is one key replacement. -/
theorem mergeL_single {β : Type} (base : List (String × β)) (k : String) (v : β) :
    mergeL base [(k, v)] = setL base k v := rfl

/-- The operations that can change the stored master plan. -/
def CtxOp.keepsPlan : CtxOp → Bool
  | .setPlan _ => false
  | .patch u => u.masterPlan = none
  | _ => true

theorem applyOp_masterPlan (s : AgentContextSnapshot) (op : CtxOp)
    (hop : op.keepsPlan = true) : (applyOp s op).masterPlan = s.masterPlan := by
  cases op with
  | upsert t now => rfl
  | link p c now => rfl
  | addObs o => rfl
  | mergeWM m => rfl
  | setActive a => rfl
  | setPlan p => simp [CtxOp.keepsPlan] at hop
  | patch u =>
      simp only [CtxOp.keepsPlan, decide_eq_true_eq] at hop
      simp [applyOp, AgentContextSnapshot.patch, hop]

theorem applyOps_masterPlan (s : AgentContextSnapshot) (ops : List CtxOp)
    (hops : ops.all CtxOp.keepsPlan = true) :
    (applyOps s ops).masterPlan = s.masterPlan := by
  induction ops generalizing s with
  | nil => rfl
  | cons op rest ih =>
      simp only [List.all_cons, Bool.and_eq_true] at hops
      show (applyOps (applyOp s op) rest).masterPlan = s.masterPlan
      rw [ih (applyOp s op) hops.2, applyOp_masterPlan s op hops.1]

/-- Guard on one operation: a `patch` that replaces the tasks table must keep
a binding for the given root id. -/
def CtxOp.keepsRoot (root : String) : CtxOp → Bool
  | .patch u =>
      match u.tasks with
      | some m => (lookupL m root).isSome
      | none => true
  | _ => true

theorem applyOp_rootTaskId (s : AgentContextSnapshot) (op : CtxOp) :
    (applyOp s op).rootTaskId = s.rootTaskId := by
  cases op <;> rfl

theorem applyOp_keepsRoot (s : AgentContextSnapshot) (op : CtxOp)
    (hroot : (lookupL s.tasks s.rootTaskId).isSome)
    (hop : op.keepsRoot s.rootTaskId = true) :
    (lookupL (applyOp s op).tasks s.rootTaskId).isSome := by
  cases op with
  | upsert t now =>
      exact lookupL_setL_isSome _ _ _ _ hroot
  | link p c now =>
      show (lookupL (AgentContextSnapshot.linkChildInMap s.tasks p c now) s.rootTaskId).isSome
      unfold AgentContextSnapshot.linkChildInMap
      cases hp : lookupL s.tasks p with
      | none => exact hroot
      | some parent =>
          by_cases hc : c ∈ parent.children
          · simp only [if_pos hc]; exact hroot
          · simp only [if_neg hc]; exact lookupL_setL_isSome _ _ _ _ hroot
  | addObs o => exact hroot
  | mergeWM m => exact hroot
  | setActive a => exact hroot
  | setPlan p => exact hroot
  | patch u =>
      show (lookupL ((s.patch u).tasks) s.rootTaskId).isSome
      simp only [AgentContextSnapshot.patch]
      cases ht : u.tasks with
      | none => simpa using hroot
      | some m =>
          simp only [CtxOp.keepsRoot, ht] at hop
          simpa using hop

theorem applyOps_keepsRoot (s : AgentContextSnapshot) (ops : List CtxOp)
    (hroot : (lookupL s.tasks s.rootTaskId).isSome)
    (hops : ops.all (CtxOp.keepsRoot s.rootTaskId) = true) :
    (applyOps s ops).rootTaskId = s.rootTaskId ∧
      (lookupL (applyOps s ops).tasks s.rootTaskId).isSome := by
  induction ops generalizing s with
  | nil => exact ⟨rfl, hroot⟩
  | cons op rest ih =>
      simp only [List.all_cons, Bool.and_eq_true] at hops
      have hr1 := applyOp_rootTaskId s op
      have hk1 := applyOp_keepsRoot s op hroot hops.1
      have ihx := ih (applyOp s op) (by rw [hr1]; exact hk1) (by rw [hr1]; exact hops.2)
      show (applyOps (applyOp s op) rest).rootTaskId = s.rootTaskId ∧
        (lookupL (applyOps (applyOp s op) rest).tasks s.rootTaskId).isSome
      rw [← hr1]
      exact ihx

/-! ## Concrete fixtures used by the witnesses and counterexamples -/

def taskFix : TaskNode :=
  { taskId := "r", description := "root task", status := "pending",
    children := [], createdAt := 0, updatedAt := 0 }

def snapFix : AgentContextSnapshot :=
  { agentId := "a", rootTaskId := "r", activeTaskId := some "r",
    tasks := [("r", taskFix)], observations := [],
    workingMemory := [("keep", PrimValue.s "old")], metadata := [],
    iteration := 0 }

def obsFix : Observation :=
  { source := "tool", relatedTaskId := "r", timestamp := 3, payload := [],
    success := true }

def stepFix : PlanItem :=
  { id := "s1", title := "step one", status := "pending",
    toolSequence := [{ toolId := "boom" }], successCriteria := ["done"] }

def planFix : MasterPlan :=
  { planId := "p1", steps := [stepFix], currentIndex := 0,
    status := "in_progress", createdAt := 0, updatedAt := 0 }

def guardFix : ExecutionGuard :=
  { maxIterations := some 2, maxFailures := some 3 }

def mcFix : MachineCtx :=
  { live := snapFix, snapshot := snapFix, masterPlan := some planFix,
    currentStep := some stepFix, currentStepIndex := some 0,
    iterations := 2 }

/-! ## C8 — `AgentContext.patch` semantics -/

/-- The update setting `activeTaskId` to `null`, the counterexample input. -/
def patchNullActive : AgentContextUpdate := { activeTaskId := some none }

/-- C8 counterexample: `patch` with `{activeTaskId: null}` leaves `iteration`
unchanged, though the claim demands an increment for every update in which
`activeTaskId` is present, null included.  The source guards the increment by
JS truthiness (`update.activeTaskId ? … + 1 : …`), and `null` is falsy. -/
theorem patch_nullActive_counterexample :
    (snapFix.patch patchNullActive).iteration = 0 ∧
    snapFix.iteration = 0 ∧
    (snapFix.patch patchNullActive).iteration ≠ snapFix.iteration + 1 := by
  refine ⟨rfl, rfl, ?_⟩
  decide

/-- C8 (amended): `patch` shallow-merges the supplied `workingMemory` and
`metadata` (keys not mentioned survive, mentioned keys take the update's
value), fully replaces `observations` and `tasks` when supplied, sets
`iteration` to the explicitly supplied value, and otherwise increments it by
one exactly when the update's `activeTaskId` is truthy — a non-null,
non-empty string; an update with `activeTaskId` null, the empty string or
absent (and no explicit `iteration`) leaves `iteration` unchanged. -/
theorem patch_semantics (s : AgentContextSnapshot) (u : AgentContextUpdate) :
    (∀ k : String, (∀ kv ∈ u.workingMemory.getD [], kv.1 ≠ k) →
        lookupL (s.patch u).workingMemory k = lookupL s.workingMemory k) ∧
    (∀ (k : String) (v : PrimValue), ((u.workingMemory.getD []).map Prod.fst).Nodup →
        lookupL (u.workingMemory.getD []) k = some v →
        lookupL (s.patch u).workingMemory k = some v) ∧
    (∀ k : String, (∀ kv ∈ u.metadata.getD [], kv.1 ≠ k) →
        lookupL (s.patch u).metadata k = lookupL s.metadata k) ∧
    (∀ (k : String) (v : PrimValue), ((u.metadata.getD []).map Prod.fst).Nodup →
        lookupL (u.metadata.getD []) k = some v →
        lookupL (s.patch u).metadata k = some v) ∧
    (∀ o, u.observations = some o → (s.patch u).observations = o) ∧
    (∀ m, u.tasks = some m → (s.patch u).tasks = m) ∧
    (∀ n, u.iteration = some n → (s.patch u).iteration = n) ∧
    (∀ a : String, u.iteration = none → u.activeTaskId = some (some a) → a ≠ "" →
        (s.patch u).iteration = s.iteration + 1) ∧
    (u.iteration = none → u.activeTaskId = some (some "") →
        (s.patch u).iteration = s.iteration) ∧
    (u.iteration = none → u.activeTaskId = some none →
        (s.patch u).iteration = s.iteration) ∧
    (u.iteration = none → u.activeTaskId = none →
        (s.patch u).iteration = s.iteration) := by
  refine ⟨?_, ?_, ?_, ?_, ?_, ?_, ?_, ?_, ?_, ?_, ?_⟩
  · intro k hk
    exact lookupL_mergeL_notMem _ _ _ hk
  · intro k v hnd hv
    exact lookupL_mergeL_mem _ _ _ _ hnd hv
  · intro k hk
    exact lookupL_mergeL_notMem _ _ _ hk
  · intro k v hnd hv
    exact lookupL_mergeL_mem _ _ _ _ hnd hv
  · intro o ho
    simp [AgentContextSnapshot.patch, ho]
  · intro m hm
    simp [AgentContextSnapshot.patch, hm]
  · intro n hn
    simp [AgentContextSnapshot.patch, hn]
  · intro a hit hact hne
    simp [AgentContextSnapshot.patch, hit, hact,
      AgentContextSnapshot.truthyActive, hne]
  · intro hit hact
    simp [AgentContextSnapshot.patch, hit, hact,
      AgentContextSnapshot.truthyActive]
  · intro hit hact
    simp [AgentContextSnapshot.patch, hit, hact,
      AgentContextSnapshot.truthyActive]
  · intro hit hact
    simp [AgentContextSnapshot.patch, hit, hact,
      AgentContextSnapshot.truthyActive]

/-- Sample update exercising every clause of `patch_semantics`. -/
def patchSampleUpdate : AgentContextUpdate :=
  { activeTaskId := some (some "t2")
    observations := some [obsFix]
    tasks := some [("r", taskFix)]
    workingMemory := some [("fresh", PrimValue.s "new")]
    metadata := some [("tag", PrimValue.b true)] }

/-- C8 witness: `patch_semantics` evaluated on a concrete snapshot/update. -/
theorem patch_semantics_witness :
    lookupL (snapFix.patch patchSampleUpdate).workingMemory "keep" =
      some (PrimValue.s "old") ∧
    lookupL (snapFix.patch patchSampleUpdate).workingMemory "fresh" =
      some (PrimValue.s "new") ∧
    (snapFix.patch patchSampleUpdate).observations = [obsFix] ∧
    (snapFix.patch patchSampleUpdate).iteration = 1 := by
  have h := patch_semantics snapFix patchSampleUpdate
  exact ⟨h.1 "keep" (by decide),
    h.2.1 "fresh" (PrimValue.s "new") (by decide) (by decide),
    h.2.2.2.2.1 [obsFix] rfl,
    h.2.2.2.2.2.2.2.1 "t2" rfl rfl (by decide)⟩

/-! ## C6 — the root task always resolves, except through `patch` -/

def ghostTask : TaskNode :=
  { taskId := "x", description := "ghost", status := "pending",
    children := [], createdAt := 0, updatedAt := 0 }

/-- A `patch` update replacing the whole tasks table without the root. -/
def tasksReplacingPatch : AgentContextUpdate :=
  { tasks := some [("x", ghostTask)] }

/-- C6 counterexample: after `patch({tasks})` with a table that omits the
root, `rootTaskId` no longer resolves in `tasks` — the context does not
re-insert or validate the root, so the claimed invariant fails for `patch`
with a tasks replacement. -/
theorem rootTask_patch_counterexample :
    (snapFix.patch tasksReplacingPatch).rootTaskId = "r" ∧
    lookupL (snapFix.patch tasksReplacingPatch).tasks "r" = none := by
  exact ⟨rfl, by decide⟩

/-- C6 (amended): starting from the constructor, `rootTaskId` resolves in
`tasks` after every sequence of operations in which each `patch` that
replaces the tasks table keeps a binding for the root; `upsertTask`,
`linkChild`, `addObservation`, `mergeWorkingMemory` and `setActiveTask`
preserve the invariant unconditionally, and the snapshot read agrees with the
live store. -/
theorem rootTask_invariant (agentId : String) (rt : RootTaskArg) (md : Option PRec)
    (genId : String) (now : Nat) (ops : List CtxOp)
    (hops : ops.all
      (CtxOp.keepsRoot (AgentContextSnapshot.mk0 agentId rt md genId now).rootTaskId) = true) :
    (applyOps (AgentContextSnapshot.mk0 agentId rt md genId now) ops).rootTaskId =
      (AgentContextSnapshot.mk0 agentId rt md genId now).rootTaskId ∧
    (lookupL (applyOps (AgentContextSnapshot.mk0 agentId rt md genId now) ops).tasks
      (applyOps (AgentContextSnapshot.mk0 agentId rt md genId now) ops).rootTaskId).isSome ∧
    (lookupL (applyOps (AgentContextSnapshot.mk0 agentId rt md genId now) ops).getSnapshot.tasks
      (applyOps (AgentContextSnapshot.mk0 agentId rt md genId now) ops).getSnapshot.rootTaskId).isSome := by
  have hroot : (lookupL (AgentContextSnapshot.mk0 agentId rt md genId now).tasks
      (AgentContextSnapshot.mk0 agentId rt md genId now).rootTaskId).isSome := by
    simp [AgentContextSnapshot.mk0, lookupL]
  have h := applyOps_keepsRoot (AgentContextSnapshot.mk0 agentId rt md genId now) ops hroot hops
  refine ⟨h.1, ?_, ?_⟩
  · rw [h.1]; exact h.2
  · show (lookupL (applyOps _ ops).tasks (applyOps _ ops).rootTaskId).isSome
    rw [h.1]; exact h.2

/-- C6 witness: the amended invariant on a concrete operation sequence
containing every kind of operation, including a root-preserving `patch`. -/
theorem rootTask_invariant_witness :
    (applyOps (AgentContextSnapshot.mk0 "a" { description := "root task", status := "pending", taskId := some "r" } none "gen" 0)
        [CtxOp.upsert ghostTask 1, CtxOp.link "r" "x" 2, CtxOp.addObs obsFix,
          CtxOp.mergeWM [("k", PrimValue.s "v")], CtxOp.setActive (some "x"),
          CtxOp.patch { tasks := some [("r", taskFix)] }]).rootTaskId = "r" ∧
    (lookupL (applyOps (AgentContextSnapshot.mk0 "a" { description := "root task", status := "pending", taskId := some "r" } none "gen" 0)
        [CtxOp.upsert ghostTask 1, CtxOp.link "r" "x" 2, CtxOp.addObs obsFix,
          CtxOp.mergeWM [("k", PrimValue.s "v")], CtxOp.setActive (some "x"),
          CtxOp.patch { tasks := some [("r", taskFix)] }]).tasks "r").isSome := by
  have h := rootTask_invariant "a"
    { description := "root task", status := "pending", taskId := some "r" } none "gen" 0
    [CtxOp.upsert ghostTask 1, CtxOp.link "r" "x" 2, CtxOp.addObs obsFix,
      CtxOp.mergeWM [("k", PrimValue.s "v")], CtxOp.setActive (some "x"),
      CtxOp.patch { tasks := some [("r", taskFix)] }]
    (by decide)
  refine ⟨h.1, ?_⟩
  have h2 := h.2.1
  rw [h.1] at h2
  exact h2

/-! ## C9 — snapshot isolation -/

/-- C9: snapshot isolation.  In the reference-level model of
`src/core/AgentContext.ts`, take a snapshot `S` of a live context that
denotes the value `s` (`getSnapshot` deep-clones into fresh cells).  After an
arbitrary sequence of subsequent mutations of the live context —
`upsertTask`, `linkChild`, `addObservation`, `mergeWorkingMemory`,
`setActiveTask`, `patch` (and `setMasterPlan`) — the snapshot still
dereferences to the same value `s`: every mutator rebuilds the live record by
object spread and only allocates fresh cells, so no cell reachable from `S`
is ever written. -/
theorem snapshot_isolation (h : Heap) (r : SnapRef) (s : AgentContextSnapshot)
    (ops : List CtxOp) (hres : resolveRef h r = some s) :
    resolveRef (getSnapshotRef h r).1 (getSnapshotRef h r).2 = some s ∧
    resolveRef (applyOpsRef ((getSnapshotRef h r).1, r) ops).1
      (getSnapshotRef h r).2 = some s := by
  have hsnap := getSnapshotRef_resolve hres
  refine ⟨hsnap, ?_⟩
  exact resolveRef_mono (applyOpsRef_heapLE ((getSnapshotRef h r).1, r) ops) hsnap

/-- The heap of the concrete isolation witness. -/
def heapFix : Heap :=
  [HeapVal.tasksV [("r", taskFix)], HeapVal.obsV [], HeapVal.recV [], HeapVal.recV []]

/-- The live record of the concrete isolation witness. -/
def refFix : SnapRef :=
  { agentId := "a", rootTaskId := "r", activeTaskId := some "r",
    tasksA := 0, obsA := 1, wmA := 2, mdA := 3, iteration := 0 }

/-- The snapshot value `heapFix`/`refFix` denotes. -/
def snapValFix : AgentContextSnapshot :=
  { agentId := "a", rootTaskId := "r", activeTaskId := some "r",
    tasks := [("r", taskFix)], observations := [], workingMemory := [],
    metadata := [], iteration := 0 }

/-- C9 witness: isolation on a concrete heap under a concrete mutation
sequence touching memory, observations, tasks and a patch. -/
theorem snapshot_isolation_witness :
    resolveRef heapFix refFix = some snapValFix ∧
    resolveRef (getSnapshotRef heapFix refFix).1 (getSnapshotRef heapFix refFix).2 =
      some snapValFix ∧
    resolveRef
      (applyOpsRef ((getSnapshotRef heapFix refFix).1, refFix)
        [CtxOp.mergeWM [("k", PrimValue.s "v")], CtxOp.addObs obsFix,
          CtxOp.upsert ghostTask 4, CtxOp.patch tasksReplacingPatch]).1
      (getSnapshotRef heapFix refFix).2 = some snapValFix := by
  have h := snapshot_isolation heapFix refFix snapValFix
    [CtxOp.mergeWM [("k", PrimValue.s "v")], CtxOp.addObs obsFix,
      CtxOp.upsert ghostTask 4, CtxOp.patch tasksReplacingPatch] rfl
  exact ⟨rfl, h.1, h.2⟩

/-! ## C1 — the Executor does not capture adapter exceptions -/

/-- An adapter whose `execute` rejects (throws) with message `kaboom`. -/
def boomTool : ToolAdapter :=
  { id := "boom", description := "always throws", execute := fun _ => .error "kaboom" }

def envFix : ExecEnv :=
  { traceId := "tr", reqEventId := "e-req", resEventId := "e-res",
    tReq := 1, tStart := 2, tEnd := 3, tRes := 4 }

/-- C1 counterexample: with the selected adapter rejecting, `Executor.execute`
propagates the exception — it returns the error, emits only the
`tool.request` event (no `tool.result`), and produces no `ExecutionResult`
with `success=false`; `src/core/Executor.ts` has no try/catch around
`await tool.execute(input)`. -/
theorem executor_throw_counterexample :
    Executor.execute [boomTool] planFix 0 stepFix snapFix none envFix =
      ([mkRequestEvent envFix "boom" planFix 0 stepFix], Except.error "kaboom") ∧
    (Executor.execute [boomTool] planFix 0 stepFix snapFix none envFix).1.filter
      (fun e => e.etype = "tool.result") = [] := by
  exact ⟨rfl, by decide⟩

/-- C1 (amended): whenever the resolved adapter's `execute` raises, the
exception escapes `Executor.execute` unchanged: the emitted events are
exactly the single `tool.request`, no `tool.result` is emitted, and no
`ExecutionResult` is returned (the machine's `act` error wiring treats the
escaped exception as an agent failure). -/
theorem executor_exception_propagates (reg : ToolRegistry) (plan : MasterPlan)
    (idx : Nat) (step : PlanItem) (snap : AgentContextSnapshot)
    (pref : Option String) (env : ExecEnv) (toolId : String) (tool : ToolAdapter)
    (msg : String)
    (hid : pref.orElse (fun _ => step.toolSequence.head?.map PlanItemTool.toolId) =
      some toolId)
    (hreg : registryGet reg toolId = some tool)
    (hrun : tool.execute
      (mkToolInput env plan step
        ((step.toolSequence.find? (fun c => c.toolId = toolId)).orElse
          (fun _ => step.toolSequence.head?)) snap) = .error msg) :
    Executor.execute reg plan idx step snap pref env =
      ([mkRequestEvent env toolId plan idx step], .error msg) := by
  simp only [Executor.execute, hid, hreg, hrun]

/-- C1 witness: `executor_exception_propagates` applied to the throwing
adapter fixture, with every hypothesis discharged by computation. -/
theorem executor_exception_propagates_witness :
    (none : Option String).orElse
      (fun _ => stepFix.toolSequence.head?.map PlanItemTool.toolId) = some "boom" ∧
    registryGet [boomTool] "boom" = some boomTool ∧
    Executor.execute [boomTool] planFix 0 stepFix snapFix none envFix =
      ([mkRequestEvent envFix "boom" planFix 0 stepFix], .error "kaboom") := by
  refine ⟨rfl, rfl, ?_⟩
  exact executor_exception_propagates [boomTool] planFix 0 stepFix snapFix none envFix
    "boom" boomTool "kaboom" rfl rfl rfl

/-! ## C4 — the EventBus retains nothing; the bridge retains everything -/

def busFix : EventBus := { listeners := ["client-a"] }

def evFix : BusEvent :=
  { eventId := "ev1", etype := "agent.log", timestamp := 5, traceId := "tr",
    payload := .agentState "a" "plan" 0 none }

/-- C4 counterexample: emitting an event leaves the bus state unchanged, so
the bus retains no emitted sequence and no operation on it can return the
events emitted so far — in particular no `history()` distinguishing the bus
after one emission from the fresh bus can exist.  The source `EventBus`
(`src/event/EventBus.ts`) exposes only `emit`, `events`, `eventsOfType`
and `mapEvents` over a bare `eventemitter3` emitter. -/
theorem eventbus_history_counterexample :
    (EventBus.emit busFix evFix).1 = busFix ∧
    ¬ ∃ hist : EventBus → List BusEvent,
        hist (EventBus.emit busFix evFix).1 = [evFix] ∧ hist busFix = [] := by
  refine ⟨rfl, ?_⟩
  rintro ⟨hist, h1, h2⟩
  rw [show (EventBus.emit busFix evFix).1 = busFix from rfl, h2] at h1
  exact List.noConfusion h1

/-- C4 (amended): `emit` delivers the event to exactly the currently attached
listeners and keeps no record of it; the ordered full history of a run is
retained outside the bus, by the devpanel bridge, whose event subscriber
appends every emitted event to its `eventHistory` buffer in emission order
(the buffer it replays to late-joining `/events` clients). -/
theorem eventbus_no_retention (bus : EventBus) (e : BusEvent) (st : BridgeState)
    (es : List BusEvent) :
    (EventBus.emit bus e).1 = bus ∧
    (EventBus.emit bus e).2 = bus.listeners.map (fun l => (l, e)) ∧
    (BridgeState.afterEvents st es).eventHistory = st.eventHistory ++ es := by
  refine ⟨rfl, rfl, ?_⟩
  induction es generalizing st with
  | nil => simp [BridgeState.afterEvents]
  | cons e0 rest ih =>
      show (BridgeState.afterEvents (st.onBusEvent e0) rest).eventHistory = _
      rw [ih (st.onBusEvent e0)]
      simp [BridgeState.onBusEvent]

/-! ## C10 — `/run` substitutes a default root task -/

/-- C10: a `POST /run` body that is empty (parsed by `readJson` to `{}`) or
lacks `rootTask` is not rejected: the handler substitutes the default root
task — generated `taskId`, description `Default root task`, status
`pending` — runs the agent with it, and answers 200 with the
`AgentRunResult`. -/
theorem run_default_root (parse : String → Except String RunBody)
    (runner : AgentRunInput → Except String AgentRunResult) (now : Nat)
    (body : RunBody) (r : AgentRunResult)
    (hbody : body.rootTask = none)
    (hrun : runner { rootTask := defaultRootTask now, metadata := body.metadata } =
      .ok r) :
    readJson parse "" = .ok { rootTask := none, metadata := none } ∧
    handleRun runner now body = { code := 200, outcome := .success r } ∧
    (defaultRootTask now).description = "Default root task" ∧
    (defaultRootTask now).status = "pending" ∧
    (defaultRootTask now).taskId = some ("task-" ++ toString now) := by
  refine ⟨rfl, ?_, rfl, rfl, rfl⟩
  simp [handleRun, hbody, hrun]

def runResultFix : AgentRunResult :=
  { state := .finish, iterations := 1, finalSnapshot := snapFix }

/-- C10 witness: the empty body `{}` with a runner that completes
successfully yields the 200 response carrying the run result. -/
theorem run_default_root_witness :
    ({} : RunBody).rootTask = none ∧
    handleRun (fun _ => .ok runResultFix) 9 {} =
      { code := 200, outcome := .success runResultFix } := by
  refine ⟨rfl, ?_⟩
  exact (run_default_root (fun _ => .error "bad json") (fun _ => .ok runResultFix)
    9 {} runResultFix rfl rfl).2.1

/-! ## C2 — the planner's master plan is stored into the context -/

/-- C2: on a successful planner invocation, `storePlannerResult` stores the
returned `MasterPlan` into the AgentContext through `setMasterPlan`, and
`getMasterPlan` as well as every snapshot taken afterwards — under any
further context operations that do not themselves overwrite the plan —
report exactly that plan.  (`setMasterPlan`/`getMasterPlan` are modelled
from the spec: the `AgentContext` revision defining them is not among the
sources, only its callers and type declarations.) -/
theorem planner_result_stored (mc : MachineCtx) (pr : PlannerResult)
    (ops : List CtxOp) (hops : ops.all CtxOp.keepsPlan = true) :
    (storePlannerResult mc (some pr)).live.getMasterPlan = some pr.plan ∧
    (storePlannerResult mc (some pr)).snapshot.masterPlan = some pr.plan ∧
    (storePlannerResult mc (some pr)).masterPlan = some pr.plan ∧
    (applyOps (storePlannerResult mc (some pr)).live ops).getSnapshot.masterPlan =
      some pr.plan := by
  refine ⟨rfl, rfl, rfl, ?_⟩
  show (applyOps (storePlannerResult mc (some pr)).live ops).masterPlan = some pr.plan
  rw [applyOps_masterPlan _ _ hops]
  rfl

def prFix : PlannerResult := { plan := planFix, issuedAt := 0 }

/-- C2 witness: storing a concrete planner result and running further
non-plan operations keeps every snapshot's `masterPlan` at the stored plan. -/
theorem planner_result_stored_witness :
    ([CtxOp.mergeWM [("k", PrimValue.s "v")], CtxOp.addObs obsFix,
        CtxOp.patch patchNullActive].all CtxOp.keepsPlan = true) ∧
    (storePlannerResult mcFix (some prFix)).live.getMasterPlan = some planFix ∧
    (applyOps (storePlannerResult mcFix (some prFix)).live
        [CtxOp.mergeWM [("k", PrimValue.s "v")], CtxOp.addObs obsFix,
          CtxOp.patch patchNullActive]).getSnapshot.masterPlan = some planFix := by
  have h := planner_result_stored mcFix prFix
    [CtxOp.mergeWM [("k", PrimValue.s "v")], CtxOp.addObs obsFix,
      CtxOp.patch patchNullActive] (by decide)
  exact ⟨by decide, h.1, h.2.2.2⟩

/-! ## C3 — a guard violation is fatal, bypassing the error state -/

/-- C3 (code bug): a guard violation on entry to `plan` does **not** take the
failure path the spec and the repository's own architecture document
describe.  `checkGuards` throws from an entry action, and the plan state's
`onError` catches only rejections of the invoked planner actor, so the
violation errors the whole actor and `AgentRuntime.run` rejects: the
activation yields the fatal `.error msg` outcome — no failure slot is
consumed, `lastError` is not merged, the `error` state is never entered.
The last two conjuncts show what the shared failure path (`failTransition`,
taken by planner/executor/reflector rejections) would have recorded, which
is exactly what the claim asserts for guard violations. -/
theorem guard_violation_fatal (guard : ExecutionGuard) (now : Nat)
    (mc : MachineCtx) (msg : String) (po : Except String PlannerResult)
    (hvio : checkGuards guard now mc = some msg) :
    planStateStep guard now mc po = .error msg ∧
    (failTransition guard mc msg).2.failures = mc.failures + 1 ∧
    lookupL (failTransition guard mc msg).2.live.workingMemory "lastError" =
      some (PrimValue.s msg) := by
  refine ⟨by simp [planStateStep, hvio], rfl, ?_⟩
  show lookupL ((mc.live.mergeWorkingMemory [("lastError", PrimValue.s msg)]).workingMemory)
    "lastError" = some (PrimValue.s msg)
  show lookupL (mergeL mc.live.workingMemory [("lastError", PrimValue.s msg)])
    "lastError" = some (PrimValue.s msg)
  rw [mergeL_single, lookupL_setL_self]

/-- C3 witness: with `maxIterations = 2` and 2 iterations performed, the
`plan` activation is fatal with the guard's message — the planner outcome is
never consulted and no failure is recorded — while the ordinary failure path
on the same context would have consumed exactly one slot. -/
theorem guard_violation_fatal_witness :
    checkGuards guardFix 0 mcFix = some "Agent exceeded max iterations 2" ∧
    planStateStep guardFix 0 mcFix (.ok prFix) =
      .error "Agent exceeded max iterations 2" ∧
    (failTransition guardFix mcFix "Agent exceeded max iterations 2").2.failures = 1 := by
  have h := guard_violation_fatal guardFix 0 mcFix
    "Agent exceeded max iterations 2" (.ok prFix) rfl
  exact ⟨rfl, h.1, h.2.1⟩

/-! ## C5 — abort stores the message under `reflectMessage`, not `abortReason` -/

/-- Upserting task nodes never touches the working memory. -/
theorem wm_foldl_upsert (ts : List TaskNode) (s : AgentContextSnapshot) (now : Nat) :
    (ts.foldl (fun acc t => acc.upsertTask t now) s).workingMemory =
      s.workingMemory := by
  induction ts generalizing s with
  | nil => rfl
  | cons t rest ih => exact ih (s.upsertTask t now)

def reflAbort : ReflectionResult :=
  { directive := "abort", plan := planFix, message := some "exhausted" }

/-- The reflect activation of the counterexample run. -/
def abortStep : MState × MachineCtx :=
  reflectStateStep guardFix 7 mcFix (.ok reflAbort)

/-- C5 counterexample: an `abort` reflection with message `exhausted` ends in
`finish`, but the final working memory has no `abortReason` key at all — the
message is merged under `reflectMessage` instead, because the current machine
routes every directive through `commitReflectionResult`, which only ever
merges `{reflectMessage: message}`. -/
theorem abort_reason_counterexample :
    abortStep.1 = MState.finish ∧
    lookupL abortStep.2.live.workingMemory "abortReason" = none ∧
    lookupL abortStep.2.live.workingMemory "reflectMessage" =
      some (PrimValue.s "exhausted") := by
  refine ⟨rfl, ?_, ?_⟩ <;> decide

/-- C5 (amended): whenever the Reflector returns directive `abort`, the
machine transitions to `finish`; a truthy (non-empty) message is merged into
working memory under `reflectMessage` — the treatment every directive with a
message receives — while an empty or absent message merges nothing, and the
`abortReason` key is in every case left exactly as it was. -/
theorem abort_merges_reflectMessage (guard : ExecutionGuard) (now : Nat)
    (mc : MachineCtx) (st : PlanItem) (r : ReflectionResult) (m : String)
    (hstep : mc.currentStep = some st) (hd : r.directive = "abort") :
    (reflectStateStep guard now mc (.ok r)).1 = MState.finish ∧
    (r.message = some m → m ≠ "" →
      lookupL (reflectStateStep guard now mc (.ok r)).2.live.workingMemory
        "reflectMessage" = some (PrimValue.s m)) ∧
    (r.message = some "" →
      (reflectStateStep guard now mc (.ok r)).2.live.workingMemory =
        mc.live.workingMemory) ∧
    (r.message = none →
      (reflectStateStep guard now mc (.ok r)).2.live.workingMemory =
        mc.live.workingMemory) ∧
    lookupL (reflectStateStep guard now mc (.ok r)).2.live.workingMemory
      "abortReason" = lookupL mc.live.workingMemory "abortReason" := by
  have hred : reflectStateStep guard now mc (.ok r) =
      (directiveTarget r.directive, commitReflectionResult now mc (some r)) := by
    simp [reflectStateStep, hstep]
  have hskip : ∀ hm0 : r.message = some "" ∨ r.message = none,
      (commitReflectionResult now mc (some r)).live.workingMemory =
        mc.live.workingMemory := by
    intro hm0
    have hbase : (((extractTaskUpdates r.metadata).foldl
        (fun s t => s.upsertTask t now)
        (mc.live.setMasterPlan (some r.plan)))).workingMemory =
        mc.live.workingMemory := by
      rw [wm_foldl_upsert]; rfl
    rcases hm0 with hm0 | hm0
    · simp only [commitReflectionResult, hm0, if_pos rfl]
      exact hbase
    · simp only [commitReflectionResult, hm0]
      exact hbase
  refine ⟨?_, ?_, ?_, ?_, ?_⟩
  · rw [hred, hd]; rfl
  · intro hm hne
    rw [hred]
    show lookupL (commitReflectionResult now mc (some r)).live.workingMemory
      "reflectMessage" = some (PrimValue.s m)
    have hwm : (commitReflectionResult now mc (some r)).live.workingMemory =
        mergeL mc.live.workingMemory [("reflectMessage", PrimValue.s m)] := by
      simp only [commitReflectionResult, hm, if_neg hne]
      show (AgentContextSnapshot.mergeWorkingMemory _ _).workingMemory = _
      show mergeL (((extractTaskUpdates r.metadata).foldl _
          (mc.live.setMasterPlan (some r.plan))).workingMemory) _ = _
      rw [wm_foldl_upsert]
      rfl
    rw [hwm, mergeL_single, lookupL_setL_self]
  · intro hm
    rw [hred]
    exact hskip (Or.inl hm)
  · intro hm
    rw [hred]
    exact hskip (Or.inr hm)
  · rw [hred]
    show lookupL (commitReflectionResult now mc (some r)).live.workingMemory
      "abortReason" = lookupL mc.live.workingMemory "abortReason"
    cases hm : r.message with
    | none => rw [hskip (Or.inr hm)]
    | some m0 =>
        by_cases hm0e : m0 = ""
        · rw [hm0e] at hm
          rw [hskip (Or.inl hm)]
        · have hwm : (commitReflectionResult now mc (some r)).live.workingMemory =
              mergeL mc.live.workingMemory [("reflectMessage", PrimValue.s m0)] := by
            simp only [commitReflectionResult, hm, if_neg hm0e]
            show (AgentContextSnapshot.mergeWorkingMemory _ _).workingMemory = _
            show mergeL (((extractTaskUpdates r.metadata).foldl _
                (mc.live.setMasterPlan (some r.plan))).workingMemory) _ = _
            rw [wm_foldl_upsert]
            rfl
          rw [hwm, mergeL_single, lookupL_setL_ne]
          decide

/-- C5 witness: the amended statement at the concrete abort fixture, with a
non-empty message. -/
theorem abort_merges_reflectMessage_witness :
    mcFix.currentStep = some stepFix ∧
    reflAbort.directive = "abort" ∧
    reflAbort.message = some "exhausted" ∧
    (reflectStateStep guardFix 7 mcFix (.ok reflAbort)).1 = MState.finish ∧
    lookupL (reflectStateStep guardFix 7 mcFix (.ok reflAbort)).2.live.workingMemory
      "reflectMessage" = some (PrimValue.s "exhausted") := by
  have h := abort_merges_reflectMessage guardFix 7 mcFix stepFix reflAbort
    "exhausted" rfl rfl
  exact ⟨rfl, rfl, rfl, h.1, h.2.1 rfl (by decide)⟩

/-! ## C7 — the directive table, iterations and the attempt counter -/

/-- C7: every reflector result applied in `reflect` is routed exactly by the
directive table — `complete` and `abort` to `finish`; `replan`, `await_user`
and every unrecognised directive to `plan`; `advance`, `retry` and `fallback`
to `act` — while `commitReflectionResult` increments `iterations` by one and
increments `attempt` exactly for `retry`/`fallback`, resetting it to 0 for
every other directive. -/
theorem reflect_directive_table (guard : ExecutionGuard) (now : Nat)
    (mc : MachineCtx) (st : PlanItem) (r : ReflectionResult)
    (hstep : mc.currentStep = some st) :
    reflectStateStep guard now mc (.ok r) =
      (directiveTarget r.directive, commitReflectionResult now mc (some r)) ∧
    (commitReflectionResult now mc (some r)).iterations = mc.iterations + 1 ∧
    (commitReflectionResult now mc (some r)).attempt =
      (if r.directive = "retry" ∨ r.directive = "fallback" then mc.attempt + 1
       else 0) ∧
    (directiveTarget r.directive = MState.finish ↔
      (r.directive = "complete" ∨ r.directive = "abort")) ∧
    (directiveTarget r.directive = MState.act ↔
      (r.directive = "advance" ∨ r.directive = "retry" ∨ r.directive = "fallback")) ∧
    (directiveTarget r.directive = MState.plan ↔
      (¬(r.directive = "complete" ∨ r.directive = "abort") ∧
        ¬(r.directive = "advance" ∨ r.directive = "retry" ∨ r.directive = "fallback"))) := by
  refine ⟨by simp [reflectStateStep, hstep], ?_, ?_, ?_, ?_, ?_⟩
  · cases hm : r.message <;> simp [commitReflectionResult, hm]
  · cases hm : r.message <;> simp [commitReflectionResult, hm]
  · unfold directiveTarget
    split_ifs with h1 h2 h3 h4 h5 <;> simp_all
  · unfold directiveTarget
    split_ifs with h1 h2 h3 h4 h5 <;> simp_all
  · unfold directiveTarget
    split_ifs with h1 h2 h3 h4 h5 <;> simp_all

def reflWeird : ReflectionResult :=
  { directive := "weird", plan := planFix, message := none }

/-- C7 witness: a concrete unrecognised directive `weird` routes to `plan`,
increments `iterations` and resets `attempt`. -/
theorem reflect_directive_table_witness :
    reflectStateStep guardFix 7 mcFix (.ok reflWeird) =
      (MState.plan, commitReflectionResult 7 mcFix (some reflWeird)) ∧
    (commitReflectionResult 7 mcFix (some reflWeird)).iterations = 3 ∧
    (commitReflectionResult 7 mcFix (some reflWeird)).attempt = 0 ∧
    directiveTarget "weird" = MState.plan := by
  have h := reflect_directive_table guardFix 7 mcFix stepFix reflWeird rfl
  exact ⟨h.1, h.2.1, by rw [h.2.2.1]; decide, rfl⟩

end AgentFsm
